import Mathlib

/-!
Verification of the Postgres driver core (`src/driver/PostgresDriver.ts`).

The TypeScript source is shallowly embedded: each driver method that the
claims mention becomes a Lean definition transcribed from the source.
JavaScript objects iterated via `Object.keys` are modelled as ordered
association lists (insertion order, which is what `Object.keys` yields for
string keys); JavaScript values flowing through the driver are modelled by
a small inductive type `JSVal`.
-/

namespace PostgresDriver

/-- A JavaScript value as it flows through the driver's query-building
    code: numbers, strings, booleans and arrays (`value instanceof Array`). -/
inductive JSVal where
  | vnum (n : Int)
  | vstr (s : String)
  | vbool (b : Bool)
  | varr (xs : List JSVal)
deriving Repr

/-- `escapeColumnName(columnName)` (source line 427): wraps the name in
    double quotes. -/
def escapeColumnName (columnName : String) : String :=
  "\"" ++ columnName ++ "\""

/-- `escapeTableName(tableName)` (source line 441): wraps the name in
    double quotes. -/
def escapeTableName (tableName : String) : String :=
  "\"" ++ tableName ++ "\""

/-- Helper transcribing `Object.keys(objectLiteral).map((key, index) => ...)`
    of `parametrize` (source line 477): `idx` is the running map index. -/
def parametrizeAux (startIndex : Nat) (idx : Nat) : List String → List String
  | [] => []
  | key :: keys =>
      (escapeColumnName key ++ "=$" ++ toString (startIndex + idx + 1))
        :: parametrizeAux startIndex (idx + 1) keys

/-- `parametrize(objectLiteral, startIndex = 0)` (source lines 477-479):
    maps each key of the object, in iteration order, to
    `"key"=$(startIndex + index + 1)`. -/
def parametrize (objectLiteral : List (String × JSVal)) (startIndex : Nat := 0) :
    List String :=
  parametrizeAux startIndex 0 (objectLiteral.map Prod.fst)

/-- `update(dbConnection, tableName, valuesMap, conditions)`
    (source lines 297-308), modelled as the pair
    (SQL text passed to `query`, flat parameter list). The template literal
    is `UPDATE ${esc table} SET ${updateValues} ${conditionString ? (" WHERE " + conditionString) : ""}`,
    so a single space always follows the SET clause. -/
def update (tableName : String) (valuesMap conditions : List (String × JSVal)) :
    String × List JSVal :=
  let updateValues := String.intercalate ", " (parametrize valuesMap)
  let conditionString :=
    String.intercalate " AND " (parametrize conditions (valuesMap.map Prod.fst).length)
  let query := "UPDATE " ++ escapeTableName tableName ++ " SET " ++ updateValues
      ++ " " ++ (if conditionString ≠ "" then " WHERE " ++ conditionString else "")
  let updateParams := valuesMap.map Prod.snd
  let conditionParams := conditions.map Prod.snd
  (query, updateParams ++ conditionParams)

/-! ### Parameter rewriting (`escapeQueryWithParameters`, source lines 403-422)

The source builds the regular expression `(:key1\b)|(:key2\b)|...` from the
keys of the parameter object and performs a global replace. The model scans
the SQL text left to right; at each position it tries the alternatives in
key order (exactly how a JavaScript regex alternation is attempted at each
candidate position), where an alternative `:key\b` matches when `:key` is a
literal prefix of the remaining text followed by a word boundary. -/

/-- JavaScript `\w`: ASCII letters, digits and underscore. -/
def isWordChar (c : Char) : Bool := c.isAlphanum || c == '_'

/-- JavaScript `\b` placed after `prev` and before `rest`: matches when
    word-ness changes (end of input counts as non-word). -/
def wordBoundaryAfter (prev : Char) (rest : List Char) : Bool :=
  isWordChar prev != (match rest with | [] => false | c :: _ => isWordChar c)

/-- Boolean "is literal prefix" test on character lists. -/
def charsPrefix : List Char → List Char → Bool
  | [], _ => true
  | _ :: _, [] => false
  | c :: cs, d :: ds => c == d && charsPrefix cs ds

/-- Attempts the regex alternatives `(:key\b)` in key order at the current
    position `l`; returns the matched key and its bound value (the source
    looks the value up as `parameters[key.substr(1)]`; object keys are
    unique, so returning the pair's value is the same lookup). -/
def matchParam (l : List Char) : List (String × JSVal) → Option (String × JSVal)
  | [] => none
  | (key, v) :: ps =>
      if charsPrefix (':' :: key.data) l
          && wordBoundaryAfter ((':' :: key.data).getLast (by simp))
              (l.drop (key.data.length + 1))
      then some (key, v)
      else matchParam l ps

/-- The array arm of the replace callback (source lines 411-415): pushes each
    element onto `builtParameters` and emits `"$" + builtParameters.length`
    after each push. Returns the placeholder strings and the grown list. -/
def pushAll (xs : List JSVal) (built : List JSVal) : List String × List JSVal :=
  match xs with
  | [] => ([], built)
  | x :: r =>
      let built1 := built ++ [x]
      let (ss, bf) := pushAll r built1
      (("$" ++ toString built1.length) :: ss, bf)

/-- The replace callback body (source lines 410-419): an `Array` value is
    expanded to comma-joined placeholders; any other value is pushed and
    replaced by `"$" + builtParameters.length`. -/
def applyValue (v : JSVal) (built : List JSVal) : String × List JSVal :=
  match v with
  | .varr xs =>
      let (ss, bf) := pushAll xs built
      (String.intercalate ", " ss, bf)
  | x => ("$" ++ toString (built.length + 1), built ++ [x])

/-- The global-replace scan: at each position, if some alternative matches,
    emit the callback's replacement and resume after the matched token;
    otherwise copy one character. Each step consumes at least one input
    character, so fuel equal to the input length is enough; the fuel-zero
    case can only be reached with empty input. -/
def rewriteScan (params : List (String × JSVal)) :
    Nat → List Char → List JSVal → String × List JSVal
  | _, [], built => ("", built)
  | 0, l, built => (⟨l⟩, built)
  | fuel + 1, c :: rest, built =>
      match matchParam (c :: rest) params with
      | some (key, v) =>
          let (repl, built1) := applyValue v built
          let (out, builtF) :=
            rewriteScan params fuel ((c :: rest).drop (key.data.length + 1)) built1
          (repl ++ out, builtF)
      | none =>
          let (out, builtF) := rewriteScan params fuel rest built
          (String.singleton c ++ out, builtF)

/-- `escapeQueryWithParameters(sql, parameters)` (source lines 403-422):
    returns the SQL unchanged with an empty argument list when the parameter
    object is absent or has no keys (the absent case is modelled by the
    empty list), otherwise performs the global replace. -/
def escapeQueryWithParameters (sql : String) (parameters : List (String × JSVal)) :
    String × List JSVal :=
  if parameters.isEmpty then (sql, [])
  else rewriteScan parameters sql.data.length sql.data []

/-! ### Connection pool tracking
(`retrieveDatabaseConnection` lines 157-185, `releaseDatabaseConnection`
lines 191-198, `disconnect` lines 125-150)

A `DatabaseConnection` record is identified by the identity of its
underlying client connection (`handle`, a number standing for the object
identity used by `find`/`indexOf`). `retrieveDatabaseConnection` sets
`releaseCallback` on every retrieval (line 175) and nothing in the source
ever clears it, so a record retrieved from the pool carries its callback
forever — also after it has been spliced out of the collection. -/

/-- The tracked `DatabaseConnection` record: numeric `id`, identity of the
    underlying client connection, and whether a release callback is
    attached. -/
structure DbConnRec where
  id : Nat
  handle : Nat
  releaseCallback : Bool
deriving Repr, DecidableEq

/-- Pool-side driver state for retrieve/release sequences: whether
    `this.pool` exists, the `databaseConnectionPool` collection, and a log
    of release-callback invocations (by connection handle). -/
structure PoolSt where
  poolActive : Bool
  conns : List DbConnRec
  released : List Nat
deriving Repr, DecidableEq

/-- The pool branch of `retrieveDatabaseConnection` (source lines 158-178):
    look the handle up by underlying-connection identity; if absent, append
    a fresh record whose `id` is the current collection length; in both
    cases (re)attach the release callback. When pooling is inactive the
    collection is untouched (lines 181-184 return the single connection). -/
def retrieveOp (st : PoolSt) (h : Nat) : PoolSt :=
  if st.poolActive then
    if (st.conns.find? (fun c => c.handle == h)).isSome then
      { st with conns := (st.conns.map (fun c =>
          if c.handle == h then { c with releaseCallback := true } else c)) }
    else
      { st with conns := st.conns ++ [⟨st.conns.length, h, true⟩] }
  else st

/-- `Array.prototype.indexOf(dbConnection)`: index of the record with this
    object identity, `none` for JavaScript's `-1`. -/
def jsIndexOf (conns : List DbConnRec) (h : Nat) : Option Nat :=
  conns.findIdx? (fun c => c.handle == h)

/-- `splice(i, 1)` as called on line 194: at a non-negative index it removes
    that element; at `-1` (the element was not found) it removes the LAST
    element of the array (and nothing when the array is empty). -/
def spliceOne (conns : List DbConnRec) : Option Nat → List DbConnRec
  | some i => conns.eraseIdx i
  | none => conns.dropLast

/-- `releaseDatabaseConnection(dbConnection)` (source lines 191-198):
    if `this.pool` exists and the passed record carries a release callback,
    invoke the callback and `splice` the record's `indexOf` position out of
    the collection; otherwise do nothing and resolve. `hasCallback` is the
    `releaseCallback` field of the record object handed in (always `true`
    for a record previously retrieved from the pool). -/
def releaseOp (st : PoolSt) (h : Nat) (hasCallback : Bool := true) : PoolSt :=
  if st.poolActive && hasCallback then
    { st with
        conns := spliceOne st.conns (jsIndexOf st.conns h),
        released := st.released ++ [h] }
  else st

/-- A retrieve/release request against the driver. -/
inductive PoolOp where
  | retrieve (h : Nat)
  | release (h : Nat)
deriving Repr, DecidableEq

/-- Runs a sequence of retrieve/release operations. Released records carry
    their callback (see `releaseOp`). -/
def runOps (st : PoolSt) : List PoolOp → PoolSt
  | [] => st
  | .retrieve h :: ops => runOps (retrieveOp st h) ops
  | .release h :: ops => runOps (releaseOp st h) ops

/-- Driver state after `connect()` in pooled mode: a pool object and an
    empty tracked collection. -/
def initPool : PoolSt := ⟨true, [], []⟩

/-- Full driver state as `disconnect` sees it: the optional single
    connection (`this.databaseConnection`), whether the pg pool object
    `this.pool` exists, and the tracked collection. -/
structure DriverSt where
  databaseConnection : Bool
  pool : Bool
  databaseConnectionPool : List DbConnRec
deriving Repr, DecidableEq

/-- Observable side effects of `disconnect`. -/
inductive DiscEvent where
  | endSingleConnection
  | invokeReleaseCallback (id : Nat)
  | poolEnd
deriving Repr, DecidableEq

/-- Ways `disconnect` can fail: the guard error of line 127, or the
    JavaScript `TypeError` raised by evaluating `this.pool.end` when
    `this.pool` is `undefined` (which rejects the returned promise). -/
inductive DiscError where
  | connectionNotSet
  | typeErrorPoolUndefined
deriving Repr, DecidableEq

/-- `disconnect()` (source lines 125-150). Note line 137: the source tests
    `if (this.databaseConnectionPool)` — an array is always truthy, so the
    pool-teardown block runs even when no pool object exists, and
    `this.pool.end(handler)` then throws a `TypeError`. On failure only the
    rejection is reported. -/
def disconnect (st : DriverSt) : Except DiscError (DriverSt × List DiscEvent) :=
  if !st.databaseConnection && !st.pool then
    .error .connectionNotSet
  else
    let (st1, ev1) :=
      if st.databaseConnection then
        ({ st with databaseConnection := false }, [DiscEvent.endSingleConnection])
      else (st, ([] : List DiscEvent))
    let ev2 := st1.databaseConnectionPool.filterMap
      (fun c => if c.releaseCallback then some (DiscEvent.invokeReleaseCallback c.id) else none)
    if st1.pool then
      .ok ({ st1 with pool := false, databaseConnectionPool := [] },
        ev1 ++ ev2 ++ [DiscEvent.poolEnd])
    else
      .error .typeErrorPoolUndefined

/-! ### Transactions (`beginTransaction` lines 222-228,
`commitTransaction` lines 233-239, `rollbackTransaction` lines 244-250)

Each operation is modelled as a function of the connection record and of
whether the underlying begin/commit/rollback statement issued through
`query` succeeds; it returns the resulting record and the raised error, if
any. The flag mutation sits after the `await`, so it happens only when the
statement succeeded. -/

/-- The transaction-relevant part of a `DatabaseConnection`. -/
structure TxConn where
  isTransactionActive : Bool
deriving Repr, DecidableEq

/-- Errors a transaction operation can surface: the two state-machine
    guards, or the failure of the underlying SQL statement (propagated
    unchanged by `query`). -/
inductive TxError where
  | transactionAlreadyStarted
  | transactionNotStarted
  | queryFailed
deriving Repr, DecidableEq

/-- `beginTransaction(dbConnection)` (source lines 222-228). -/
def beginTransaction (c : TxConn) (querySucceeds : Bool) : TxConn × Option TxError :=
  if c.isTransactionActive then (c, some .transactionAlreadyStarted)
  else if querySucceeds then ({ c with isTransactionActive := true }, none)
  else (c, some .queryFailed)

/-- `commitTransaction(dbConnection)` (source lines 233-239). -/
def commitTransaction (c : TxConn) (querySucceeds : Bool) : TxConn × Option TxError :=
  if !c.isTransactionActive then (c, some .transactionNotStarted)
  else if querySucceeds then ({ c with isTransactionActive := false }, none)
  else (c, some .queryFailed)

/-- `rollbackTransaction(dbConnection)` (source lines 244-250). -/
def rollbackTransaction (c : TxConn) (querySucceeds : Bool) : TxConn × Option TxError :=
  if !c.isTransactionActive then (c, some .transactionNotStarted)
  else if querySucceeds then ({ c with isTransactionActive := false }, none)
  else (c, some .queryFailed)

/-! ### Closure table (`insertIntoClosureTable`, source lines 326-340) -/

/-- The insert statement built on lines 328-336. -/
def closureInsertSql (tableName : String) (newEntityId parentId : Int)
    (hasLevel : Bool) : String :=
  if hasLevel then
    "INSERT INTO " ++ escapeTableName tableName ++ "(ancestor, descendant, level) "
      ++ "SELECT ancestor, " ++ toString newEntityId ++ ", level + 1 FROM "
      ++ escapeTableName tableName ++ " WHERE descendant = " ++ toString parentId
      ++ " UNION ALL SELECT " ++ toString newEntityId ++ ", "
      ++ toString newEntityId ++ ", 1"
  else
    "INSERT INTO " ++ escapeTableName tableName ++ "(ancestor, descendant) "
      ++ "SELECT ancestor, " ++ toString newEntityId ++ " FROM "
      ++ escapeTableName tableName ++ " WHERE descendant = " ++ toString parentId
      ++ " UNION ALL SELECT " ++ toString newEntityId ++ ", " ++ toString newEntityId

/-- The level query issued on line 338 (raw table name, not escaped). -/
def closureMaxLevelSql (tableName : String) (parentId : Int) : String :=
  "SELECT MAX(level) as level FROM " ++ tableName
    ++ " WHERE descendant = " ++ toString parentId

/-- The return value of `insertIntoClosureTable` (source line 339):
    `results && results[0] && results[0]["level"] ? parseInt(...) + 1 : 1`.
    A result row is modelled by its `level` field, `none` for SQL `NULL`;
    a number is truthy exactly when it is non-zero, and `parseInt` of an
    integer-valued level is that integer. -/
def closureTableReturnValue (results : List (Option Int)) : Int :=
  match results with
  | [] => 1
  | level :: _ =>
      match level with
      | none => 1
      | some m => if m ≠ 0 then m + 1 else 1

/-! ### Value marshalling (`preparePersistentValue` lines 345-364,
`prepareHydratedValue` lines 369-397)

The marshalling code delegates to external built-ins (`moment` formatting
and parsing, `JSON.stringify`/`JSON.parse`, `String(...)`, `split(",")`).
Those built-ins are not part of this repository, so they are modelled here
(each doc comment says from what); the driver's own `switch` statements are
transcribed directly. -/

/-- The decimal digit character for `n % 10`. -/
def dig (n : Nat) : Char := Char.ofNat (48 + n % 10)

/-- Numeric value of a digit character. -/
def digitVal (c : Char) : Nat := c.toNat - 48

/-- Fuelled digit expansion; any fuel above the value itself is enough,
    since `n / 10 < n` for `n ≥ 10`. -/
def natDigitsF : Nat → Nat → List Char
  | 0, _ => []
  | fuel + 1, n => if n < 10 then [dig n] else natDigitsF fuel (n / 10) ++ [dig n]

/-- Decimal digit characters of a natural number, most significant first
    (the JavaScript decimal rendering of a non-negative integer). -/
def natDigits (n : Nat) : List Char := natDigitsF (n + 1) n

/-- Modelled from the spec: the JavaScript decimal rendering `String(n)` /
    `JSON.stringify(n)` of an integral number. -/
def intChars (n : Int) : List Char :=
  if n < 0 then '-' :: natDigits (-n).toNat else natDigits n.toNat

/-- Consumes a maximal run of decimal digits, updating the accumulator. -/
def parseDigitsAux (acc : Nat) : List Char → Nat × List Char
  | [] => (acc, [])
  | c :: r => if c.isDigit then parseDigitsAux (acc * 10 + digitVal c) r else (acc, c :: r)

/-- Whether a character list starts with a decimal digit. -/
def headIsDigit : List Char → Bool
  | [] => false
  | c :: _ => c.isDigit

/-! #### Dates (`moment`, modelled from the spec) -/

/-- The fields of a JavaScript `Date` relevant to the `moment` formats used
    by the driver (`YYYY-MM-DD`, `HH:mm:ss`, `YYYY-MM-DD HH:mm:ss`), plus
    milliseconds, which no used format carries. -/
structure JsDate where
  year : Nat
  month : Nat
  day : Nat
  hour : Nat
  minute : Nat
  second : Nat
  ms : Nat
deriving Repr, DecidableEq

/-- Two-digit zero-padded rendering (`MM`, `DD`, `HH`, `mm`, `ss`);
    faithful to `moment` for field values up to 99. -/
def pad2 (n : Nat) : List Char := [dig (n / 10), dig n]

/-- Four-digit zero-padded rendering (`YYYY`); faithful to `moment` for
    years up to 9999. -/
def pad4 (n : Nat) : List Char :=
  [dig (n / 1000), dig (n / 100), dig (n / 10), dig n]

/-- Modelled from the spec: `moment(value).format("YYYY-MM-DD")`. -/
def formatYMD (d : JsDate) : String :=
  ⟨pad4 d.year ++ '-' :: (pad2 d.month ++ '-' :: pad2 d.day)⟩

/-- Modelled from the spec: `moment(value).format("HH:mm:ss")`. -/
def formatHMS (d : JsDate) : String :=
  ⟨pad2 d.hour ++ ':' :: (pad2 d.minute ++ ':' :: pad2 d.second)⟩

/-- Modelled from the spec: `moment(value).format("YYYY-MM-DD HH:mm:ss")`. -/
def formatFull (d : JsDate) : String :=
  ⟨(formatYMD d).data ++ ' ' :: (formatHMS d).data⟩

/-- Value of two digit characters, if both are digits. -/
def parse2 (a b : Char) : Option Nat :=
  if a.isDigit && b.isDigit then some (digitVal a * 10 + digitVal b) else none

/-- Value of four digit characters, if all are digits. -/
def parse4 (a b c d : Char) : Option Nat :=
  if a.isDigit && b.isDigit && c.isDigit && d.isDigit then
    some (digitVal a * 1000 + digitVal b * 100 + digitVal c * 10 + digitVal d)
  else none

/-- Modelled from the spec: `moment(value, "YYYY-MM-DD").toDate()`. A
    matching string yields a date at midnight; a non-matching one yields an
    Invalid Date, modelled as `none`. -/
def momentParseDate (s : String) : Option JsDate :=
  match s.data with
  | [y1, y2, y3, y4, s1, m1, m2, s2, d1, d2] =>
      if s1 == '-' && s2 == '-' then
        match parse4 y1 y2 y3 y4, parse2 m1 m2, parse2 d1 d2 with
        | some y, some mo, some dd => some ⟨y, mo, dd, 0, 0, 0, 0⟩
        | _, _, _ => none
      else none
  | _ => none

/-- Modelled from the spec: `moment(value, "HH:mm:ss").toDate()`. The
    format carries no date, so `moment` fills in the current date, passed
    here explicitly as `today`. -/
def momentParseTime (today : JsDate) (s : String) : Option JsDate :=
  match s.data with
  | [h1, h2, s1, m1, m2, s2, c1, c2] =>
      if s1 == ':' && s2 == ':' then
        match parse2 h1 h2, parse2 m1 m2, parse2 c1 c2 with
        | some hh, some mi, some se =>
            some ⟨today.year, today.month, today.day, hh, mi, se, 0⟩
        | _, _, _ => none
      else none
  | _ => none

/-- Modelled from the spec: `moment(value, "YYYY-MM-DD HH:mm:ss").toDate()`. -/
def momentParseDateTime (s : String) : Option JsDate :=
  match s.data with
  | [y1, y2, y3, y4, s1, m1, m2, s2, d1, d2, sp, h1, h2, c1, i1, i2, c2, e1, e2] =>
      if s1 == '-' && s2 == '-' && sp == ' ' && c1 == ':' && c2 == ':' then
        match parse4 y1 y2 y3 y4, parse2 m1 m2, parse2 d1 d2,
            parse2 h1 h2, parse2 i1 i2, parse2 e1 e2 with
        | some y, some mo, some dd, some hh, some mi, some se =>
            some ⟨y, mo, dd, hh, mi, se, 0⟩
        | _, _, _, _, _, _ => none
      else none
  | _ => none

/-! #### JSON (`JSON.stringify` / `JSON.parse`, modelled from the spec) -/

/-! A JSON value (numbers restricted to integers, the only numeric values
the driver's own code produces). -/
mutual
inductive Json where
  | null
  | jbool (b : Bool)
  | jnum (n : Int)
  | jstr (s : String)
  | jarr (xs : JsonList)
  | jobj (ms : JsonMembers)
inductive JsonList where
  | nil
  | cons (hd : Json) (tl : JsonList)
inductive JsonMembers where
  | nil
  | cons (k : String) (v : Json) (tl : JsonMembers)
end

/-- Lower-case hexadecimal digit. -/
def hexDig (n : Nat) : Char := if n < 10 then dig n else Char.ofNat (87 + n)

/-- Modelled from the spec: how `JSON.stringify` renders one character of
    a string: `"` and `\` are backslash-escaped, control characters use the
    short escapes or `\u00XX`, anything else is copied. -/
def escapeJsonChar (c : Char) : List Char :=
  if c == '"' then ['\\', '"']
  else if c == '\\' then ['\\', '\\']
  else if c == '\n' then ['\\', 'n']
  else if c == '\t' then ['\\', 't']
  else if c == '\r' then ['\\', 'r']
  else if c.toNat == 8 then ['\\', 'b']
  else if c.toNat == 12 then ['\\', 'f']
  else if c.toNat < 32 then
    ['\\', 'u', '0', '0', hexDig (c.toNat / 16), hexDig (c.toNat % 16)]
  else [c]

/-- Serialization of a string body, character by character. -/
def serStr : List Char → List Char
  | [] => []
  | c :: cs => escapeJsonChar c ++ serStr cs

/-! Modelled from the spec: `JSON.stringify` (no whitespace). -/
mutual
def serJson : Json → List Char
  | .null => ['n', 'u', 'l', 'l']
  | .jbool true => ['t', 'r', 'u', 'e']
  | .jbool false => ['f', 'a', 'l', 's', 'e']
  | .jnum n => intChars n
  | .jstr s => '"' :: (serStr s.data ++ ['"'])
  | .jarr xs => '[' :: (serElemsJ xs ++ [']'])
  | .jobj ms => '{' :: (serMembersJ ms ++ ['}'])
def serElemsJ : JsonList → List Char
  | .nil => []
  | .cons h .nil => serJson h
  | .cons h (.cons h2 t) => serJson h ++ ',' :: serElemsJ (.cons h2 t)
def serMembersJ : JsonMembers → List Char
  | .nil => []
  | .cons k v .nil => '"' :: (serStr k.data ++ ['"']) ++ ':' :: serJson v
  | .cons k v (.cons k2 v2 t) =>
      ('"' :: (serStr k.data ++ ['"']) ++ ':' :: serJson v)
        ++ ',' :: serMembersJ (.cons k2 v2 t)
end

/-- `JSON.stringify(value)` on the modelled JSON universe. -/
def stringifyJson (v : Json) : String := ⟨serJson v⟩

/-- Inverse of the short escapes recognized after a backslash. -/
def unescape (c : Char) : Option Char :=
  if c == '"' then some '"'
  else if c == '\\' then some '\\'
  else if c == 'n' then some '\n'
  else if c == 't' then some '\t'
  else if c == 'r' then some '\r'
  else if c == 'b' then some (Char.ofNat 8)
  else if c == 'f' then some (Char.ofNat 12)
  else none

/-! Parsing of a string body up to the closing quote. (`\uXXXX` and `\/`
escapes, which the serializer above never emits for the values the
round-trip theorem ranges over, are not modelled and fail.) -/
mutual
def parseStrBody : List Char → Option (List Char × List Char)
  | [] => none
  | c :: r =>
      if c == '"' then some ([], r)
      else if c == '\\' then parseStrEsc r
      else (parseStrBody r).map (fun p => (c :: p.1, p.2))
def parseStrEsc : List Char → Option (List Char × List Char)
  | [] => none
  | e :: r2 =>
      match unescape e with
      | some u => (parseStrBody r2).map (fun p => (u :: p.1, p.2))
      | none => none
end

/-- Parses an integer literal: optional minus sign, then a digit run. -/
def parseNumber : List Char → Option (Int × List Char)
  | [] => none
  | c :: r =>
      if c == '-' then
        match r with
        | [] => none
        | c2 :: r2 =>
            if c2.isDigit then
              let p := parseDigitsAux (digitVal c2) r2
              some (-(p.1 : Int), p.2)
            else none
      else if c.isDigit then
        let p := parseDigitsAux (digitVal c) r
        some ((p.1 : Int), p.2)
      else none

/-! Modelled from the spec: `JSON.parse`, as a fuelled recursive-descent
reader of the grammar the serializer emits (no whitespace skipping;
`parseJson` supplies ample fuel). -/
mutual
def parseVal : Nat → List Char → Option (Json × List Char)
  | 0, _ => none
  | fuel + 1, l =>
      match l with
      | [] => none
      | c :: r =>
          if c == '"' then (parseStrBody r).map (fun p => (.jstr ⟨p.1⟩, p.2))
          else if c == '[' then
            match r with
            | [] => none
            | c2 :: r2 =>
                if c2 == ']' then some (.jarr .nil, r2)
                else (parseElems fuel (c2 :: r2)).map (fun p => (.jarr p.1, p.2))
          else if c == '{' then
            match r with
            | [] => none
            | c2 :: r2 =>
                if c2 == '}' then some (.jobj .nil, r2)
                else (parseMembers fuel (c2 :: r2)).map (fun p => (.jobj p.1, p.2))
          else if c == 'n' then
            match r with
            | 'u' :: 'l' :: 'l' :: r2 => some (.null, r2)
            | _ => none
          else if c == 't' then
            match r with
            | 'r' :: 'u' :: 'e' :: r2 => some (.jbool true, r2)
            | _ => none
          else if c == 'f' then
            match r with
            | 'a' :: 'l' :: 's' :: 'e' :: r2 => some (.jbool false, r2)
            | _ => none
          else (parseNumber (c :: r)).map (fun p => (.jnum p.1, p.2))
def parseElems : Nat → List Char → Option (JsonList × List Char)
  | 0, _ => none
  | fuel + 1, l =>
      match parseVal fuel l with
      | none => none
      | some (v, r) =>
          match r with
          | ',' :: r2 =>
              match parseElems fuel r2 with
              | none => none
              | some (vs, r3) => some (.cons v vs, r3)
          | ']' :: r2 => some (.cons v .nil, r2)
          | _ => none
def parseMembers : Nat → List Char → Option (JsonMembers × List Char)
  | 0, _ => none
  | fuel + 1, l =>
      match l with
      | '"' :: r =>
          match parseStrBody r with
          | none => none
          | some (k, r1) =>
              match r1 with
              | ':' :: r2 =>
                  match parseVal fuel r2 with
                  | none => none
                  | some (v, r3) =>
                      match r3 with
                      | ',' :: r4 =>
                          match parseMembers fuel r4 with
                          | none => none
                          | some (ms, r5) => some (.cons ⟨k⟩ v ms, r5)
                      | '}' :: r4 => some (.cons ⟨k⟩ v .nil, r4)
                      | _ => none
              | _ => none
      | _ => none
end

/-- `JSON.parse(text)`: parse with ample fuel, requiring full consumption. -/
def parseJson (s : String) : Option Json :=
  match parseVal (2 * s.length + 1) s.data with
  | some (v, []) => some v
  | _ => none

/-- Characters of a string whose `JSON.stringify` image the modelled parser
    can read back: everything except the control characters that need a
    `\uXXXX` escape. -/
def jcharOk (c : Char) : Bool :=
  decide (32 ≤ c.toNat) || c == '\n' || c == '\t' || c == '\r'
    || decide (c.toNat = 8) || decide (c.toNat = 12)

/-- All characters of the string are round-trippable. -/
def strOk (s : String) : Bool := s.data.all jcharOk

/-! The JSON values the round-trip theorem ranges over: every string in the
value (member keys included) is round-trippable. -/
mutual
def jsonOk : Json → Bool
  | .null => true
  | .jbool _ => true
  | .jnum _ => true
  | .jstr s => strOk s
  | .jarr xs => jsonListOk xs
  | .jobj ms => jsonMembersOk ms
def jsonListOk : JsonList → Bool
  | .nil => true
  | .cons h t => jsonOk h && jsonListOk t
def jsonMembersOk : JsonMembers → Bool
  | .nil => true
  | .cons k v t => strOk k && jsonOk v && jsonMembersOk t
end

/-! A size measure used to discharge the parser's fuel. -/
mutual
def jsize : Json → Nat
  | .null => 1
  | .jbool _ => 1
  | .jnum _ => 1
  | .jstr _ => 1
  | .jarr xs => lsize xs + 1
  | .jobj ms => msize ms + 1
def lsize : JsonList → Nat
  | .nil => 1
  | .cons h t => jsize h + lsize t + 1
def msize : JsonMembers → Nat
  | .nil => 1
  | .cons _ v t => jsize v + msize t + 1
end

/-! #### Simple arrays (`String(...)` and `split(",")`, modelled from the
spec) -/

/-! Modelled from the spec: the JavaScript string coercion `String(i)`
applied to each element on line 359 (an array stringifies as its elements
joined by commas). -/
mutual
def jsToString : JSVal → String
  | .vnum n => ⟨intChars n⟩
  | .vstr s => s
  | .vbool b => if b then "true" else "false"
  | .varr xs => ⟨jsToStringArr xs⟩
def jsToStringArr : List JSVal → List Char
  | [] => []
  | x :: [] => (jsToString x).data
  | x :: (y :: xs) => (jsToString x).data ++ ',' :: jsToStringArr (y :: xs)
end

/-- Modelled from the spec: `Array.prototype.join(",")` on character
    lists. Joining the empty array yields the empty string. -/
def joinCommaChars : List (List Char) → List Char
  | [] => []
  | s :: [] => s
  | s :: (t :: r) => s ++ ',' :: joinCommaChars (t :: r)

/-- `.join(",")` (source line 360). -/
def joinComma (xs : List String) : String := ⟨joinCommaChars (xs.map String.data)⟩

/-- Modelled from the spec: `String.prototype.split(",")` on character
    lists. Splitting the empty string yields one empty segment. -/
def splitCommaChars : List Char → List (List Char)
  | [] => [[]]
  | c :: r =>
      let rest := splitCommaChars r
      if c == ',' then [] :: rest
      else
        match rest with
        | [] => [[c]]
        | s :: ss => (c :: s) :: ss

/-- `value.split(",")` (source line 393). -/
def jsSplitComma (s : String) : List String :=
  (splitCommaChars s.data).map (fun l => ⟨l⟩)

/-! #### The marshalling switch statements -/

/-- The column semantic types of `ColumnTypes` that the switches handle. -/
inductive ColumnType where
  | boolean
  | date
  | time
  | datetime
  | json
  | simpleArray
  | other
deriving Repr, DecidableEq

/-- The application-side values marshalling operates on (`any` in the
    source): booleans, numbers, strings, `Date` objects, JSON structures
    and arrays. -/
inductive Hval where
  | hbool (b : Bool)
  | hnum (n : Int)
  | hstr (s : String)
  | hdate (d : JsDate)
  | hjson (j : Json)
  | harr (xs : List JSVal)

/-- JavaScript truthiness of an `Hval` (`value ? true : false`). -/
def jsTruthy : Hval → Bool
  | .hbool b => b
  | .hnum n => decide (n ≠ 0)
  | .hstr s => decide (s ≠ "")
  | .hdate _ => true
  | .hjson _ => true
  | .harr _ => true

/-- `preparePersistentValue(value, column)` (source lines 345-364).
    `none` marks a value outside the modelled domain of the external
    built-in the branch delegates to (`moment(value)` for non-`Date`
    values, `JSON.stringify` beyond the modelled JSON universe). -/
def preparePersistentValue (column : ColumnType) (value : Hval) : Option Hval :=
  match column with
  | .boolean => some (.hnum (match value with | .hbool true => 1 | _ => 0))
  | .date =>
      match value with
      | .hdate d => some (.hstr (formatYMD d))
      | _ => none
  | .time =>
      match value with
      | .hdate d => some (.hstr (formatHMS d))
      | _ => none
  | .datetime =>
      match value with
      | .hdate d => some (.hstr (formatFull d))
      | _ => none
  | .json =>
      match value with
      | .hjson j => some (.hstr (stringifyJson j))
      | _ => none
  | .simpleArray =>
      match value with
      | .harr xs => some (.hstr (joinComma (xs.map jsToString)))
      | _ => none
  | .other => some value

/-- `prepareHydratedValue(value, column)` (source lines 369-397). `today`
    feeds the date part `moment` supplies when parsing the time-only
    format. The `date` and `datetime` branches pass a `Date` through
    unchanged (lines 375-376 and 384-385); `time` has no such check. -/
def prepareHydratedValue (today : JsDate) (column : ColumnType) (value : Hval) :
    Option Hval :=
  match column with
  | .boolean => some (.hbool (jsTruthy value))
  | .date =>
      match value with
      | .hdate d => some (.hdate d)
      | .hstr s => (momentParseDate s).map .hdate
      | _ => none
  | .time =>
      match value with
      | .hstr s => (momentParseTime today s).map .hdate
      | _ => none
  | .datetime =>
      match value with
      | .hdate d => some (.hdate d)
      | .hstr s => (momentParseDateTime s).map .hdate
      | _ => none
  | .json =>
      match value with
      | .hstr s => (parseJson s).map .hjson
      | _ => none
  | .simpleArray =>
      match value with
      | .hstr s => some (.harr ((jsSplitComma s).map JSVal.vstr))
      | _ => none
  | .other => some value

/-! ## Lemmas -/

/-! ### Decimal digits -/

lemma dig_isDigit (k : Nat) : (dig k).isDigit = true := by
  have h : k % 10 < 10 := Nat.mod_lt _ (by norm_num)
  unfold dig
  generalize k % 10 = m at h ⊢
  interval_cases m <;> decide

lemma digitVal_dig (k : Nat) : digitVal (dig k) = k % 10 := by
  have h : k % 10 < 10 := Nat.mod_lt _ (by norm_num)
  unfold digitVal dig
  generalize k % 10 = m at h ⊢
  interval_cases m <;> decide

lemma isDigit_beq_false {c : Char} (x : Char) (h : c.isDigit = true)
    (hx : x.isDigit = false) : (c == x) = false := by
  by_cases hcx : c = x
  · rw [hcx] at h; simp [h] at hx
  · exact beq_eq_false_iff_ne.mpr hcx

lemma natDigitsF_eq (f1 : Nat) : ∀ f2 n, n < f1 → n < f2 →
    natDigitsF f1 n = natDigitsF f2 n := by
  induction f1 with
  | zero => omega
  | succ f ih =>
      intro f2 n h1 h2
      cases f2 with
      | zero => omega
      | succ g =>
          simp only [natDigitsF]
          by_cases h : n < 10
          · simp [h]
          · simp only [h, if_false]
            rw [ih g (n / 10) (by omega) (by omega)]

lemma natDigits_lt (n : Nat) (h : n < 10) : natDigits n = [dig n] := by
  simp [natDigits, natDigitsF, h]

lemma natDigits_ge (n : Nat) (h : 10 ≤ n) :
    natDigits n = natDigits (n / 10) ++ [dig n] := by
  unfold natDigits
  rw [show natDigitsF (n + 1) n = natDigitsF n (n / 10) ++ [dig n] from by
    simp [natDigitsF, Nat.not_lt.mpr h]]
  rw [natDigitsF_eq n (n / 10 + 1) (n / 10) (by omega) (by omega)]

lemma natDigits_head_digit (n : Nat) :
    ∃ c cs, natDigits n = c :: cs ∧ c.isDigit = true := by
  induction n using Nat.strong_induction_on with
  | _ n ih =>
      by_cases h : n < 10
      · exact ⟨dig n, [], natDigits_lt n h, dig_isDigit n⟩
      · obtain ⟨c, cs, hc, hd⟩ := ih (n / 10) (by omega)
        exact ⟨c, cs ++ [dig n], by rw [natDigits_ge n (by omega), hc]; simp, hd⟩

lemma natDigits_ne_nil (n : Nat) : natDigits n ≠ [] := by
  obtain ⟨c, cs, hc, _⟩ := natDigits_head_digit n
  simp [hc]

lemma parseDigitsAux_stop (acc : Nat) (rest : List Char)
    (h : headIsDigit rest = false) : parseDigitsAux acc rest = (acc, rest) := by
  cases rest with
  | nil => rfl
  | cons c r =>
      simp only [headIsDigit] at h
      simp [parseDigitsAux, h]

lemma parseDigitsAux_natDigits (m : Nat) : ∀ acc rest,
    parseDigitsAux acc (natDigits m ++ rest)
      = parseDigitsAux (acc * 10 ^ (natDigits m).length + m) rest := by
  induction m using Nat.strong_induction_on with
  | _ m ih =>
      intro acc rest
      by_cases h : m < 10
      · rw [natDigits_lt m h]
        simp [parseDigitsAux, dig_isDigit, digitVal_dig, Nat.mod_eq_of_lt h]
      · rw [natDigits_ge m (by omega), List.append_assoc,
          ih (m / 10) (by omega)]
        simp only [List.cons_append, List.nil_append, parseDigitsAux,
          dig_isDigit, if_true, List.length_append, List.length_cons,
          List.length_nil, digitVal_dig]
        congr 1
        rw [pow_succ]
        ring_nf
        omega

lemma parseDigitsAux_zero_natDigits (m : Nat) (rest : List Char)
    (h : headIsDigit rest = false) :
    parseDigitsAux 0 (natDigits m ++ rest) = (m, rest) := by
  rw [parseDigitsAux_natDigits]
  simpa using parseDigitsAux_stop m rest h

lemma parseNumber_intChars (n : Int) (rest : List Char)
    (h : headIsDigit rest = false) :
    parseNumber (intChars n ++ rest) = some (n, rest) := by
  obtain ⟨c, cs, hc, hd⟩ := natDigits_head_digit n.natAbs
  have hstep : parseDigitsAux (digitVal c) (cs ++ rest) = (n.natAbs, rest) := by
    have h0 := parseDigitsAux_zero_natDigits n.natAbs rest h
    rw [hc] at h0
    simpa [parseDigitsAux, hd] using h0
  unfold intChars
  by_cases hn : n < 0
  · have habs : (-n).toNat = n.natAbs := by omega
    simp only [hn, if_true, habs, hc]
    simp only [List.cons_append, parseNumber, hd, if_true]
    rw [show (('-' : Char) == '-') = true from rfl]
    simp only [if_true, hstep]
    rw [show -((n.natAbs : Nat) : Int) = n from by omega]
  · have habs : n.toNat = n.natAbs := by omega
    simp only [hn, if_false, habs, hc]
    simp only [List.cons_append, parseNumber,
      isDigit_beq_false '-' hd (by decide), hd, if_true, if_false, hstep]
    rw [if_neg (by simp)]
    rw [show ((n.natAbs : Nat) : Int) = n from by omega]

/-! ### JSON string bodies -/

lemma parseStrBody_serStr (cs : List Char) : ∀ rest,
    cs.all jcharOk = true →
    parseStrBody (serStr cs ++ '"' :: rest) = some (cs, rest) := by
  induction cs with
  | nil =>
      intro rest _
      rfl
  | cons c cs ih =>
      intro rest hok
      simp only [List.all_cons, Bool.and_eq_true] at hok
      obtain ⟨hc, hcs⟩ := hok
      simp only [serStr, List.append_assoc]
      by_cases h1 : c = '"'
      · subst h1
        simp [escapeJsonChar, parseStrBody, parseStrEsc, unescape, ih rest hcs]
      · by_cases h2 : c = '\\'
        · subst h2
          simp [escapeJsonChar, parseStrBody, parseStrEsc, unescape,
            ih rest hcs]
        · by_cases h3 : c = '\n'
          · subst h3
            simp [escapeJsonChar, parseStrBody, parseStrEsc, unescape,
              ih rest hcs]
          · by_cases h4 : c = '\t'
            · subst h4
              simp [escapeJsonChar, parseStrBody, parseStrEsc, unescape,
                ih rest hcs]
            · by_cases h5 : c = '\r'
              · subst h5
                simp [escapeJsonChar, parseStrBody, parseStrEsc, unescape,
                  ih rest hcs]
              · have e1 : (c == '"') = false := beq_eq_false_iff_ne.mpr h1
                have e2 : (c == '\\') = false := beq_eq_false_iff_ne.mpr h2
                have e3 : (c == '\n') = false := beq_eq_false_iff_ne.mpr h3
                have e4 : (c == '\t') = false := beq_eq_false_iff_ne.mpr h4
                have e5 : (c == '\r') = false := beq_eq_false_iff_ne.mpr h5
                by_cases h6 : c.toNat = 8
                · have hofn := Char.ofNat_toNat c
                  rw [h6] at hofn
                  rw [← hofn]
                  simp [escapeJsonChar, parseStrBody, parseStrEsc, unescape,
                    ih rest hcs]
                · by_cases h7 : c.toNat = 12
                  · have hofn := Char.ofNat_toNat c
                    rw [h7] at hofn
                    rw [← hofn]
                    simp [escapeJsonChar, parseStrBody, parseStrEsc, unescape,
                      ih rest hcs]
                  · have h8 : ¬ c.toNat < 32 := by
                      simp only [jcharOk, Bool.or_eq_true, beq_iff_eq,
                        decide_eq_true_eq] at hc
                      rcases hc with ((((hc | hc) | hc) | hc) | hc) | hc
                      · omega
                      · exact absurd hc h3
                      · exact absurd hc h4
                      · exact absurd hc h5
                      · exact absurd hc h6
                      · exact absurd hc h7
                    have hb8 : (c.toNat == 8) = false := by
                      exact beq_eq_false_iff_ne.mpr h6
                    have hb12 : (c.toNat == 12) = false := by
                      exact beq_eq_false_iff_ne.mpr h7
                    simp [escapeJsonChar, e1, e2, e3, e4, e5, hb8, hb12, h8,
                      parseStrBody, ih rest hcs]

/-! ### JSON round trip -/

lemma jsize_pos (v : Json) : 1 ≤ jsize v := by
  cases v <;> simp [jsize]

lemma lsize_cons_pos (h : Json) (t : JsonList) : 1 ≤ lsize (.cons h t) := by
  simp [lsize]

lemma msize_cons_pos (k : String) (v : Json) (t : JsonMembers) :
    1 ≤ msize (.cons k v t) := by
  simp [msize]

lemma serJson_head (v : Json) :
    ∃ c cs, serJson v = c :: cs ∧ (c == ']') = false ∧ (c == '}') = false := by
  cases v with
  | null => exact ⟨'n', _, rfl, by decide, by decide⟩
  | jbool b =>
      cases b
      · exact ⟨'f', _, rfl, by decide, by decide⟩
      · exact ⟨'t', _, rfl, by decide, by decide⟩
  | jnum n =>
      by_cases hn : n < 0
      · exact ⟨'-', natDigits (-n).toNat, by simp [serJson, intChars, hn],
          by decide, by decide⟩
      · obtain ⟨c, cs, hc, hd⟩ := natDigits_head_digit n.toNat
        exact ⟨c, cs, by simp [serJson, intChars, hn, hc],
          isDigit_beq_false _ hd (by decide), isDigit_beq_false _ hd (by decide)⟩
  | jstr s => exact ⟨'"', _, rfl, by decide, by decide⟩
  | jarr xs => exact ⟨'[', _, rfl, by decide, by decide⟩
  | jobj ms => exact ⟨'{', _, rfl, by decide, by decide⟩

lemma serElemsJ_head (h : Json) (t : JsonList) :
    ∃ c cs, serElemsJ (.cons h t) = c :: cs
      ∧ (c == ']') = false ∧ (c == '}') = false := by
  obtain ⟨c, cs, hc, h1, h2⟩ := serJson_head h
  cases t with
  | nil => exact ⟨c, cs, by simp [serElemsJ, hc], h1, h2⟩
  | cons h2' t2 =>
      exact ⟨c, cs ++ ',' :: serElemsJ (.cons h2' t2),
        by simp [serElemsJ, hc], h1, h2⟩

lemma serMembersJ_head (k : String) (v : Json) (t : JsonMembers) :
    ∃ cs, serMembersJ (.cons k v t) = '"' :: cs := by
  cases t with
  | nil => exact ⟨_, rfl⟩
  | cons k2 v2 t2 => exact ⟨_, rfl⟩

mutual
theorem jsize_le_ser (v : Json) : jsize v ≤ 2 * (serJson v).length := by
  cases v with
  | null => simp [jsize, serJson]
  | jbool b => cases b <;> simp [jsize, serJson]
  | jnum n =>
      have hlen : 1 ≤ (intChars n).length := by
        by_cases hn : n < 0
        · simp [intChars, hn]
        · obtain ⟨c, cs, hc, _⟩ := natDigits_head_digit n.toNat
          simp [intChars, hn, hc]
      simp only [jsize, serJson]
      omega
  | jstr s =>
      simp only [jsize, serJson, List.length_cons, List.length_append]
      omega
  | jarr xs =>
      have := lsize_le_ser xs
      simp only [jsize, serJson, List.length_cons, List.length_append,
        List.length_nil]
      omega
  | jobj ms =>
      have := msize_le_ser ms
      simp only [jsize, serJson, List.length_cons, List.length_append,
        List.length_nil]
      omega
termination_by sizeOf v
theorem lsize_le_ser (xs : JsonList) : lsize xs ≤ 2 * (serElemsJ xs).length + 3 := by
  cases xs with
  | nil => simp [lsize, serElemsJ]
  | cons h t =>
      cases t with
      | nil =>
          have := jsize_le_ser h
          simp only [lsize, serElemsJ]
          omega
      | cons h2 t2 =>
          have h1 := jsize_le_ser h
          have h2' := lsize_le_ser (.cons h2 t2)
          simp only [lsize, serElemsJ, List.length_append, List.length_cons]
          simp only [lsize] at h2'
          omega
termination_by sizeOf xs
theorem msize_le_ser (ms : JsonMembers) : msize ms ≤ 2 * (serMembersJ ms).length + 3 := by
  cases ms with
  | nil => simp [msize, serMembersJ]
  | cons k v t =>
      cases t with
      | nil =>
          have := jsize_le_ser v
          simp only [msize, serMembersJ, List.length_cons, List.length_append]
          omega
      | cons k2 v2 t2 =>
          have h1 := jsize_le_ser v
          have h2' := msize_le_ser (.cons k2 v2 t2)
          simp only [msize, serMembersJ, List.length_append, List.length_cons]
          simp only [msize] at h2'
          omega
termination_by sizeOf ms
end

mutual
theorem parse_serJson (v : Json) (fuel : Nat) (rest : List Char)
    (hf : jsize v ≤ fuel) (hok : jsonOk v = true)
    (hstop : headIsDigit rest = false) :
    parseVal fuel (serJson v ++ rest) = some (v, rest) := by
  obtain ⟨f, rfl⟩ : ∃ f, fuel = f + 1 := by
    cases fuel with
    | zero => exact absurd hf (by have := jsize_pos v; omega)
    | succ f => exact ⟨f, rfl⟩
  cases v with
  | null => rfl
  | jbool b => cases b <;> rfl
  | jnum n =>
      have hmain : parseNumber (intChars n ++ rest) = some (n, rest) :=
        parseNumber_intChars n rest hstop
      show parseVal (f + 1) (intChars n ++ rest) = some (.jnum n, rest)
      by_cases hn : n < 0
      · have hi : intChars n = '-' :: natDigits (-n).toNat := by
          simp [intChars, hn]
        rw [hi] at hmain ⊢
        simp only [List.cons_append] at hmain ⊢
        simp [parseVal, hmain]
      · obtain ⟨c, cs, hc, hd⟩ := natDigits_head_digit n.toNat
        have hi : intChars n = c :: cs := by simp [intChars, hn, hc]
        rw [hi] at hmain ⊢
        simp only [List.cons_append] at hmain ⊢
        have e1 : (c == '"') = false := isDigit_beq_false _ hd (by decide)
        have e2 : (c == '[') = false := isDigit_beq_false _ hd (by decide)
        have e3 : (c == '{') = false := isDigit_beq_false _ hd (by decide)
        have e4 : (c == 'n') = false := isDigit_beq_false _ hd (by decide)
        have e5 : (c == 't') = false := isDigit_beq_false _ hd (by decide)
        have e6 : (c == 'f') = false := isDigit_beq_false _ hd (by decide)
        simp [parseVal, e1, e2, e3, e4, e5, e6, hmain]
  | jstr s =>
      have hok' : s.data.all jcharOk = true := by
        simpa [jsonOk, strOk] using hok
      have hsrt := parseStrBody_serStr s.data rest hok'
      show parseVal (f + 1) (('"' :: (serStr s.data ++ ['"'])) ++ rest)
        = some (.jstr s, rest)
      simp only [List.cons_append, List.append_assoc, List.singleton_append]
      simp [parseVal, hsrt]
  | jarr xs =>
      cases xs with
      | nil => rfl
      | cons h t =>
          obtain ⟨c2, cs2, hser, hb1, _⟩ := serElemsJ_head h t
          have hlist : jsonListOk (.cons h t) = true := by
            simpa [jsonOk] using hok
          have hfE : lsize (.cons h t) ≤ f := by
            simp only [jsize] at hf
            omega
          have hE := parse_serElemsJ h t f rest hfE hlist
          show parseVal (f + 1) (('[' :: (serElemsJ (.cons h t) ++ [']'])) ++ rest)
            = some (.jarr (.cons h t), rest)
          simp only [List.cons_append, List.append_assoc, List.singleton_append]
          rw [hser] at hE ⊢
          simp only [List.cons_append] at hE ⊢
          simp [parseVal, hb1, hE]
  | jobj ms =>
      cases ms with
      | nil => rfl
      | cons k v t =>
          obtain ⟨cs2, hser⟩ := serMembersJ_head k v t
          have hmem : jsonMembersOk (.cons k v t) = true := by
            simpa [jsonOk] using hok
          have hfM : msize (.cons k v t) ≤ f := by
            simp only [jsize] at hf
            omega
          have hM := parse_serMembersJ k v t f rest hfM hmem
          show parseVal (f + 1) (('{' :: (serMembersJ (.cons k v t) ++ ['}'])) ++ rest)
            = some (.jobj (.cons k v t), rest)
          simp only [List.cons_append, List.append_assoc, List.singleton_append]
          rw [hser] at hM ⊢
          simp only [List.cons_append] at hM ⊢
          simp [parseVal, hM]
termination_by sizeOf v

theorem parse_serElemsJ (h : Json) (t : JsonList) (fuel : Nat) (rest : List Char)
    (hf : lsize (.cons h t) ≤ fuel) (hok : jsonListOk (.cons h t) = true) :
    parseElems fuel (serElemsJ (.cons h t) ++ ']' :: rest)
      = some (.cons h t, rest) := by
  obtain ⟨f, rfl⟩ : ∃ f, fuel = f + 1 := by
    cases fuel with
    | zero => exact absurd hf (by have := lsize_cons_pos h t; omega)
    | succ f => exact ⟨f, rfl⟩
  have hok2 : jsonOk h = true ∧ jsonListOk t = true := by
    simpa [jsonListOk, Bool.and_eq_true] using hok
  cases t with
  | nil =>
      have hfV : jsize h ≤ f := by
        simp only [lsize] at hf
        omega
      have hV := parse_serJson h f (']' :: rest) hfV hok2.1 rfl
      show parseElems (f + 1) (serJson h ++ ']' :: rest) = some (.cons h .nil, rest)
      simp [parseElems, hV]
  | cons h2 t2 =>
      have hfV : jsize h ≤ f := by
        simp only [lsize] at hf
        omega
      have hfE : lsize (.cons h2 t2) ≤ f := by
        simp only [lsize] at hf ⊢
        omega
      have hV := parse_serJson h f
        (',' :: (serElemsJ (.cons h2 t2) ++ ']' :: rest)) hfV hok2.1 rfl
      have hE := parse_serElemsJ h2 t2 f rest hfE hok2.2
      show parseElems (f + 1)
          ((serJson h ++ ',' :: serElemsJ (.cons h2 t2)) ++ ']' :: rest)
        = some (.cons h (.cons h2 t2), rest)
      simp only [List.append_assoc, List.cons_append]
      simp [parseElems, hV, hE]
termination_by 1 + sizeOf h + sizeOf t

theorem parse_serMembersJ (k : String) (v : Json) (t : JsonMembers)
    (fuel : Nat) (rest : List Char)
    (hf : msize (.cons k v t) ≤ fuel) (hok : jsonMembersOk (.cons k v t) = true) :
    parseMembers fuel (serMembersJ (.cons k v t) ++ '}' :: rest)
      = some (.cons k v t, rest) := by
  obtain ⟨f, rfl⟩ : ∃ f, fuel = f + 1 := by
    cases fuel with
    | zero => exact absurd hf (by have := msize_cons_pos k v t; omega)
    | succ f => exact ⟨f, rfl⟩
  have hok3 : strOk k = true ∧ jsonOk v = true ∧ jsonMembersOk t = true := by
    simpa [jsonMembersOk, Bool.and_eq_true, and_assoc] using hok
  have hfV : jsize v ≤ f := by
    simp only [msize] at hf
    omega
  cases t with
  | nil =>
      have hK := parseStrBody_serStr k.data
        (':' :: (serJson v ++ '}' :: rest)) hok3.1
      have hV := parse_serJson v f ('}' :: rest) hfV hok3.2.1 rfl
      show parseMembers (f + 1)
          ((('"' :: (serStr k.data ++ ['"']) ++ ':' :: serJson v)) ++ '}' :: rest)
        = some (.cons k v .nil, rest)
      simp only [List.cons_append, List.append_assoc, List.singleton_append]
      simp [parseMembers, hK, hV]
  | cons k2 v2 t2 =>
      have hfM : msize (.cons k2 v2 t2) ≤ f := by
        simp only [msize] at hf ⊢
        omega
      have hM := parse_serMembersJ k2 v2 t2 f rest hfM hok3.2.2
      have hK := parseStrBody_serStr k.data
        (':' :: (serJson v ++ ',' :: (serMembersJ (.cons k2 v2 t2) ++ '}' :: rest)))
        hok3.1
      have hV := parse_serJson v f
        (',' :: (serMembersJ (.cons k2 v2 t2) ++ '}' :: rest)) hfV hok3.2.1 rfl
      show parseMembers (f + 1)
          ((('"' :: (serStr k.data ++ ['"']) ++ ':' :: serJson v)
              ++ ',' :: serMembersJ (.cons k2 v2 t2)) ++ '}' :: rest)
        = some (.cons k v (.cons k2 v2 t2), rest)
      simp only [List.cons_append, List.append_assoc, List.singleton_append]
      simp [parseMembers, hK, hV, hM]
termination_by 1 + sizeOf v + sizeOf t
end

theorem parseJson_stringifyJson (v : Json) (hok : jsonOk v = true) :
    parseJson (stringifyJson v) = some v := by
  have hfuel : jsize v ≤ 2 * (serJson v).length + 1 := by
    have := jsize_le_ser v
    omega
  have h := parse_serJson v (2 * (serJson v).length + 1) [] hfuel hok rfl
  rw [List.append_nil] at h
  show (match parseVal (2 * (stringifyJson v).length + 1) (stringifyJson v).data with
        | some (w, []) => some w
        | _ => none) = some v
  have hdata : (stringifyJson v).data = serJson v := rfl
  have hlen : (stringifyJson v).length = (serJson v).length := rfl
  rw [hdata, hlen, h]

/-! ### Date formats -/

lemma parse2_dig (n : Nat) (h : n ≤ 99) : parse2 (dig (n / 10)) (dig n) = some n := by
  simp [parse2, dig_isDigit, digitVal_dig]
  omega

lemma parse4_dig (n : Nat) (h : n ≤ 9999) :
    parse4 (dig (n / 1000)) (dig (n / 100)) (dig (n / 10)) (dig n) = some n := by
  simp [parse4, dig_isDigit, digitVal_dig]
  omega

lemma momentParseDate_format (d : JsDate) (hy : d.year ≤ 9999)
    (hm : d.month ≤ 99) (hd : d.day ≤ 99) :
    momentParseDate (formatYMD d) = some ⟨d.year, d.month, d.day, 0, 0, 0, 0⟩ := by
  show momentParseDate ⟨pad4 d.year ++ '-' :: (pad2 d.month ++ '-' :: pad2 d.day)⟩ = _
  simp only [momentParseDate, pad4, pad2, List.cons_append, List.nil_append]
  rw [parse4_dig d.year hy, parse2_dig d.month hm, parse2_dig d.day hd]
  rfl

lemma momentParseTime_format (today d : JsDate) (hh : d.hour ≤ 99)
    (hmi : d.minute ≤ 99) (hs : d.second ≤ 99) :
    momentParseTime today (formatHMS d)
      = some ⟨today.year, today.month, today.day, d.hour, d.minute, d.second, 0⟩ := by
  show momentParseTime today ⟨pad2 d.hour ++ ':' :: (pad2 d.minute ++ ':' :: pad2 d.second)⟩ = _
  simp only [momentParseTime, pad2, List.cons_append, List.nil_append]
  rw [parse2_dig d.hour hh, parse2_dig d.minute hmi, parse2_dig d.second hs]
  rfl

lemma momentParseDateTime_format (d : JsDate) (hy : d.year ≤ 9999)
    (hm : d.month ≤ 99) (hd : d.day ≤ 99) (hh : d.hour ≤ 99)
    (hmi : d.minute ≤ 99) (hs : d.second ≤ 99) :
    momentParseDateTime (formatFull d)
      = some ⟨d.year, d.month, d.day, d.hour, d.minute, d.second, 0⟩ := by
  show momentParseDateTime
      ⟨(formatYMD d).data ++ ' ' :: (formatHMS d).data⟩ = _
  show momentParseDateTime
      ⟨(pad4 d.year ++ '-' :: (pad2 d.month ++ '-' :: pad2 d.day))
        ++ ' ' :: (pad2 d.hour ++ ':' :: (pad2 d.minute ++ ':' :: pad2 d.second))⟩ = _
  simp only [momentParseDateTime, pad4, pad2, List.cons_append, List.nil_append,
    List.append_assoc]
  rw [parse4_dig d.year hy, parse2_dig d.month hm, parse2_dig d.day hd,
    parse2_dig d.hour hh, parse2_dig d.minute hmi, parse2_dig d.second hs]
  rfl

/-! ### Comma join and split -/

lemma splitCommaChars_ne_nil (l : List Char) : splitCommaChars l ≠ [] := by
  induction l with
  | nil => simp [splitCommaChars]
  | cons c r ih =>
      cases hc : (c == ',') with
      | true => simp [splitCommaChars, hc]
      | false =>
          simp only [splitCommaChars, hc, Bool.false_eq_true, if_false]
          rcases hrest : splitCommaChars r with _ | ⟨s, ss⟩
          · exact absurd hrest ih
          · simp

lemma splitCommaChars_nocomma (l : List Char) (h : ',' ∉ l) :
    splitCommaChars l = [l] := by
  induction l with
  | nil => rfl
  | cons c r ih =>
      simp only [List.mem_cons, not_or] at h
      obtain ⟨h1, h2⟩ := h
      have hc : (c == ',') = false := beq_eq_false_iff_ne.mpr (fun he => h1 he.symm)
      simp [splitCommaChars, hc, ih h2]

lemma splitCommaChars_append (l : List Char) (rest : List Char) (h : ',' ∉ l) :
    splitCommaChars (l ++ ',' :: rest) = l :: splitCommaChars rest := by
  induction l with
  | nil => simp [splitCommaChars]
  | cons c r ih =>
      simp only [List.mem_cons, not_or] at h
      obtain ⟨h1, h2⟩ := h
      have hc : (c == ',') = false := beq_eq_false_iff_ne.mpr (fun he => h1 he.symm)
      simp only [List.cons_append, splitCommaChars, hc, Bool.false_eq_true,
        if_false]
      rw [List.append_eq, ih h2]

lemma splitCommaChars_joinCommaChars (ss : List (List Char)) : ∀ s : List Char,
    ',' ∉ s → (∀ x ∈ ss, ',' ∉ x) →
    splitCommaChars (joinCommaChars (s :: ss)) = s :: ss := by
  induction ss with
  | nil =>
      intro s h _
      simpa [joinCommaChars] using splitCommaChars_nocomma s h
  | cons t ts ih =>
      intro s h hall
      show splitCommaChars (s ++ ',' :: joinCommaChars (t :: ts)) = _
      rw [splitCommaChars_append s _ h,
        ih t (hall t (List.mem_cons_self t ts))
          (fun x hx => hall x (List.mem_cons_of_mem t hx))]

lemma jsSplitComma_joinComma (ss : List String) (hne : ss ≠ [])
    (hfree : ∀ s ∈ ss, ',' ∉ s.data) :
    jsSplitComma (joinComma ss) = ss := by
  obtain ⟨s, ts, rfl⟩ := List.exists_cons_of_ne_nil hne
  unfold jsSplitComma joinComma
  rw [show (String.mk (joinCommaChars ((s :: ts).map String.data))).data
      = joinCommaChars ((s :: ts).map String.data) from rfl]
  rw [List.map_cons,
    splitCommaChars_joinCommaChars (ts.map String.data) s.data
      (hfree s (List.mem_cons_self s ts))
      (by
        intro x hx
        obtain ⟨y, hy, rfl⟩ := List.mem_map.mp hx
        exact hfree y (List.mem_cons_of_mem s hy))]
  show (s.data :: ts.map String.data).map (fun l => String.mk l) = s :: ts
  simp only [List.map_cons, List.map_map]
  have hcomp : ((fun l => String.mk l) ∘ String.data) = id := funext fun _ => rfl
  rw [hcomp, List.map_id]

/-! ### Replace-callback expansion (`pushAll`) -/

lemma pushAll_spec (xs : List JSVal) : ∀ built : List JSVal,
    pushAll xs built
      = ((List.range xs.length).map
            (fun i => "$" ++ toString (built.length + i + 1)),
          built ++ xs) := by
  induction xs with
  | nil => intro built; simp [pushAll]
  | cons x r ih =>
      intro built
      simp only [pushAll, ih (built ++ [x])]
      refine Prod.ext ?_ ?_
      · simp only [List.length_cons, List.length_append, List.length_singleton,
          List.length_nil, List.range_succ_eq_map, List.map_cons, List.map_map]
        refine congrArg₂ List.cons (by norm_num) ?_
        refine List.map_congr_left (fun i _ => ?_)
        simp only [Function.comp_apply]
        refine congrArg (fun t => "$" ++ t) ?_
        refine congrArg toString ?_
        omega
      · simp

/-! ### Pool id invariant under retrievals -/

lemma retrieveOp_ids (st : PoolSt) (h : Nat)
    (hinv : st.conns.map DbConnRec.id = List.range st.conns.length) :
    (retrieveOp st h).conns.map DbConnRec.id
      = List.range (retrieveOp st h).conns.length := by
  unfold retrieveOp
  by_cases hp : st.poolActive
  · simp only [hp, if_true]
    by_cases hf : (st.conns.find? (fun c => c.handle == h)).isSome = true
    · simp only [hf, if_true]
      rw [List.map_map, List.length_map]
      have hcomp : (DbConnRec.id ∘ fun c =>
          if c.handle == h then { c with releaseCallback := true } else c)
          = DbConnRec.id := by
        funext c
        by_cases hch : c.handle = h <;> simp [hch]
      rw [hcomp]
      exact hinv
    · simp only [hf, if_false]
      simp [List.map_append, hinv, List.range_succ]
  · simp only [hp, if_false]
    exact hinv

lemma runOps_retrieve_ids (hs : List Nat) : ∀ st : PoolSt,
    st.conns.map DbConnRec.id = List.range st.conns.length →
    (runOps st (hs.map PoolOp.retrieve)).conns.map DbConnRec.id
      = List.range (runOps st (hs.map PoolOp.retrieve)).conns.length := by
  induction hs with
  | nil => intro st h; simpa [runOps] using h
  | cons hh ht ih =>
      intro st h
      simp only [List.map_cons, runOps]
      exact ih _ (retrieveOp_ids st hh h)

/-! ### SQL building (`parametrize`) -/

lemma parametrizeAux_get? (startIndex idx : Nat) (keys : List String) (i : Nat) :
    (parametrizeAux startIndex idx keys).get? i =
      (keys.get? i).map
        (fun key => escapeColumnName key ++ "=$" ++ toString (startIndex + idx + i + 1)) := by
  induction keys generalizing idx i with
  | nil => simp [parametrizeAux]
  | cons k ks ih =>
      cases i with
      | zero => simp [parametrizeAux]
      | succ j =>
          simp only [parametrizeAux, List.get?_cons_succ, ih]
          cases ks.get? j with
          | none => rfl
          | some key =>
              simp only [Option.map_some']
              have h : startIndex + (idx + 1) + j + 1 = startIndex + idx + (j + 1) + 1 := by
                omega
              rw [h]

lemma parametrize_get? (obj : List (String × JSVal)) (startIndex i : Nat) :
    (parametrize obj startIndex).get? i =
      ((obj.map Prod.fst).get? i).map
        (fun key => escapeColumnName key ++ "=$" ++ toString (startIndex + i + 1)) := by
  simpa using parametrizeAux_get? startIndex 0 (obj.map Prod.fst) i

/-! ## Claim theorems -/

/-- C1 (amended): a first `releaseDatabaseConnection` on a pooled connection
    invokes its release callback exactly once and removes precisely its
    record from the tracked collection, and release is a no-op when pooling
    is inactive; however, because the callback is never cleared, a second
    release on the same handle invokes the callback again and — the record's
    `indexOf` now being `-1` — `splice(-1, 1)` removes the LAST tracked
    record instead. -/
theorem releaseDatabaseConnection_behavior :
    (∀ (st : PoolSt) (h : Nat), st.poolActive = false → releaseOp st h = st)
  ∧ (∀ (st : PoolSt) (h : Nat), st.poolActive = true →
        (releaseOp st h).released = st.released ++ [h])
  ∧ (∀ (st : PoolSt) (h i : Nat), st.poolActive = true →
        jsIndexOf st.conns h = some i →
        (releaseOp st h).conns = st.conns.eraseIdx i)
  ∧ (∀ (st : PoolSt) (h : Nat), st.poolActive = true →
        jsIndexOf st.conns h = none →
        (releaseOp st h).conns = st.conns.dropLast) := by
  refine ⟨?_, ?_, ?_, ?_⟩
  · intro st h hp
    simp [releaseOp, hp]
  · intro st h hp
    simp [releaseOp, hp]
  · intro st h i hp hidx
    simp [releaseOp, hp, spliceOne, hidx]
  · intro st h hp hidx
    simp [releaseOp, hp, spliceOne, hidx]

/-- Witness for `releaseDatabaseConnection_behavior` at concrete states. -/
theorem releaseDatabaseConnection_behavior_witness :
    releaseOp ⟨false, [⟨0, 5, true⟩], []⟩ 5 = ⟨false, [⟨0, 5, true⟩], []⟩
  ∧ (releaseOp ⟨true, [⟨0, 5, true⟩], []⟩ 5).released = [5]
  ∧ (releaseOp ⟨true, [⟨0, 5, true⟩], []⟩ 5).conns = []
  ∧ (releaseOp ⟨true, [⟨0, 5, true⟩, ⟨1, 6, true⟩], []⟩ 9).conns
      = [⟨0, 5, true⟩] := by
  refine ⟨releaseDatabaseConnection_behavior.1 _ 5 rfl, ?_, ?_, ?_⟩
  · have h := releaseDatabaseConnection_behavior.2.1 ⟨true, [⟨0, 5, true⟩], []⟩ 5 rfl
    simpa using h
  · exact releaseDatabaseConnection_behavior.2.2.1
      ⟨true, [⟨0, 5, true⟩], []⟩ 5 0 rfl (by decide)
  · exact releaseDatabaseConnection_behavior.2.2.2
      ⟨true, [⟨0, 5, true⟩, ⟨1, 6, true⟩], []⟩ 9 rfl (by decide)

/-- C1 counterexample: after retrieving handles 10 and 20 and releasing
    handle 10 twice, the release callback has been invoked twice for
    handle 10 and the record of handle 20 has been removed from the
    tracked collection as well — refuting "a second release call does not
    invoke the callback again and does not remove any other record". -/
theorem releaseDatabaseConnection_double_release_counterexample :
    (runOps initPool
        [.retrieve 10, .retrieve 20, .release 10, .release 10]).released
      = [10, 10]
  ∧ (runOps initPool
        [.retrieve 10, .retrieve 20, .release 10, .release 10]).conns
      = [] := by
  decide

/-- C2 (code bug): `disconnect` in single-connection mode first ends and
    clears the single connection, but then — because line 137 tests the
    always-truthy `databaseConnectionPool` array instead of `this.pool` —
    unconditionally evaluates `this.pool.end`, which throws a `TypeError`
    on the undefined pool and rejects the promise instead of completing
    successfully. In pooled mode it behaves as the claim says: every tracked
    callback is invoked before the pool is closed and the collection is
    cleared; a second call then fails with `ConnectionNotSetError`. -/
theorem disconnect_behavior :
    disconnect ⟨true, false, []⟩ = .error .typeErrorPoolUndefined
  ∧ (∀ recs : List DbConnRec,
        disconnect ⟨false, true, recs⟩
          = .ok (⟨false, false, []⟩,
              (recs.filterMap (fun c =>
                if c.releaseCallback then
                  some (DiscEvent.invokeReleaseCallback c.id)
                else none)) ++ [DiscEvent.poolEnd]))
  ∧ disconnect ⟨false, false, []⟩ = .error .connectionNotSet := by
  refine ⟨rfl, fun recs => ?_, rfl⟩
  simp [disconnect]

/-- C3: a failed begin/commit/rollback statement leaves the connection's
    `isTransactionActive` flag unchanged — the flag is flipped only after
    the statement succeeds. -/
theorem transaction_flag_unchanged_on_failed_statement :
    ∀ c : TxConn,
      (beginTransaction c false).1 = c
      ∧ (commitTransaction c false).1 = c
      ∧ (rollbackTransaction c false).1 = c := by
  intro c
  obtain ⟨b⟩ := c
  cases b <;>
    simp [beginTransaction, commitTransaction, rollbackTransaction]

/-- C4: `beginTransaction` fails with `TransactionAlreadyStartedError` iff
    the connection is Active, `commitTransaction` and `rollbackTransaction`
    fail with `TransactionNotStartedError` iff it is Idle; in particular
    begin-then-begin fails, commit without begin fails, and
    begin-commit-rollback fails. -/
theorem transaction_state_machine_guards :
    (∀ (c : TxConn) (qs : Bool),
        (beginTransaction c qs).2 = some TxError.transactionAlreadyStarted
          ↔ c.isTransactionActive = true)
  ∧ (∀ (c : TxConn) (qs : Bool),
        (commitTransaction c qs).2 = some TxError.transactionNotStarted
          ↔ c.isTransactionActive = false)
  ∧ (∀ (c : TxConn) (qs : Bool),
        (rollbackTransaction c qs).2 = some TxError.transactionNotStarted
          ↔ c.isTransactionActive = false)
  ∧ (beginTransaction (beginTransaction ⟨false⟩ true).1 true).2
      = some TxError.transactionAlreadyStarted
  ∧ (commitTransaction ⟨false⟩ true).2 = some TxError.transactionNotStarted
  ∧ (rollbackTransaction
        (commitTransaction (beginTransaction ⟨false⟩ true).1 true).1 true).2
      = some TxError.transactionNotStarted := by
  refine ⟨?_, ?_, ?_, by decide, by decide, by decide⟩
  · intro c qs
    obtain ⟨b⟩ := c
    cases b <;> cases qs <;> simp [beginTransaction]
  · intro c qs
    obtain ⟨b⟩ := c
    cases b <;> cases qs <;> simp [commitTransaction]
  · intro c qs
    obtain ⟨b⟩ := c
    cases b <;> cases qs <;> simp [rollbackTransaction]

/-- C5 (amended): `update` passes the update values followed by the
    condition values as one flat parameter list, numbers SET-clause
    placeholders from `$1` and condition placeholders from
    `$(len(valuesMap)+1)`, and omits the WHERE clause entirely when
    `conditions` is empty; concretely,
    `update(conn, "users", {name: "Bob"}, {})` produces
    `UPDATE "users" SET "name"=$1 ` — the claimed statement followed by the
    template's trailing space — with parameters `["Bob"]`. -/
theorem update_parameter_indexing :
    (∀ (t : String) (vs cs : List (String × JSVal)),
        (update t vs cs).2 = vs.map Prod.snd ++ cs.map Prod.snd)
  ∧ (∀ (vs : List (String × JSVal)) (i : Nat) (k : String),
        (vs.map Prod.fst).get? i = some k →
        (parametrize vs).get? i
          = some (escapeColumnName k ++ "=$" ++ toString (i + 1)))
  ∧ (∀ (vs cs : List (String × JSVal)) (j : Nat) (k : String),
        (cs.map Prod.fst).get? j = some k →
        (parametrize cs (vs.map Prod.fst).length).get? j
          = some (escapeColumnName k ++ "=$" ++ toString (vs.length + j + 1)))
  ∧ (∀ (t : String) (vs : List (String × JSVal)),
        (update t vs []).1
          = "UPDATE " ++ escapeTableName t ++ " SET "
              ++ String.intercalate ", " (parametrize vs) ++ " ")
  ∧ update "users" [("name", JSVal.vstr "Bob")] []
      = ("UPDATE \"users\" SET \"name\"=$1 ", [JSVal.vstr "Bob"]) := by
  refine ⟨fun t vs cs => by simp [update], ?_, ?_, ?_, by rfl⟩
  · intro vs i k hk
    rw [parametrize_get? vs 0 i, hk]
    simp
  · intro vs cs j k hk
    rw [parametrize_get? cs _ j, hk]
    simp
  · intro t vs
    simp only [update, parametrize, parametrizeAux, List.map_nil]
    rw [show (" AND ".intercalate ([] : List String)) = "" from rfl]
    simp

/-- Witness for `update_parameter_indexing`: the SET clause of a one-column
    update is `"name"=$1`, and a condition clause started after one update
    value is `"id"=$2`. -/
theorem update_parameter_indexing_witness :
    (parametrize [("name", JSVal.vstr "Bob")]).get? 0 = some "\"name\"=$1"
  ∧ (parametrize [("id", JSVal.vnum 7)]
        ([("name", JSVal.vstr "Bob")].map Prod.fst).length).get? 0
      = some "\"id\"=$2" :=
  ⟨update_parameter_indexing.2.1 [("name", JSVal.vstr "Bob")] 0 "name" rfl,
    update_parameter_indexing.2.2.1
      [("name", JSVal.vstr "Bob")] [("id", JSVal.vnum 7)] 0 "id" rfl⟩

/-- C5 counterexample: the statement built for empty conditions is not the
    exact text `UPDATE "users" SET "name"=$1` — the template leaves a
    trailing space behind the SET clause. -/
theorem update_empty_conditions_counterexample :
    (update "users" [("name", JSVal.vstr "Bob")] []).1
      ≠ "UPDATE \"users\" SET \"name\"=$1" := by
  decide

/-- C6: `escapeQueryWithParameters` returns the SQL unchanged with an empty
    argument list when the parameter map is empty (or absent), expands a
    sequence value into that many consecutive comma-joined positional
    placeholders, and rewrites the claimed example to
    `$1` / `$2, $3, $4` with argument list `[5, 1, 2, 3]`. -/
theorem escapeQueryWithParameters_rewrite :
    (∀ sql : String, escapeQueryWithParameters sql [] = (sql, []))
  ∧ (∀ (xs built : List JSVal),
        applyValue (.varr xs) built
          = (String.intercalate ", "
              ((List.range xs.length).map
                (fun i => "$" ++ toString (built.length + i + 1))),
             built ++ xs))
  ∧ escapeQueryWithParameters "SELECT * FROM t WHERE x = :v1 AND y IN (:v2)"
      [("v1", .vnum 5), ("v2", .varr [.vnum 1, .vnum 2, .vnum 3])]
      = ("SELECT * FROM t WHERE x = $1 AND y IN ($2, $3, $4)",
         [.vnum 5, .vnum 1, .vnum 2, .vnum 3]) := by
  refine ⟨fun sql => by simp [escapeQueryWithParameters],
    fun xs built => ?_, by rfl⟩
  simp [applyValue, pushAll_spec]

/-- C7 (amended): hydrate-after-persist is the identity for boolean columns
    and — on the modelled JSON universe — for json columns; for simple-array
    columns it is the identity exactly on non-empty arrays of comma-free
    strings (the empty array comes back as `[""]`, and stringified non-string
    elements come back as strings); date, time and datetime columns are
    recovered up to the precision of their formats (sub-format fields reset,
    the time format taking its date from the current day). -/
theorem prepare_roundtrip (today : JsDate) :
    (∀ b : Bool,
        (preparePersistentValue .boolean (.hbool b)).bind
          (prepareHydratedValue today .boolean) = some (.hbool b))
  ∧ (∀ j : Json, jsonOk j = true →
        (preparePersistentValue .json (.hjson j)).bind
          (prepareHydratedValue today .json) = some (.hjson j))
  ∧ (∀ ss : List String, ss ≠ [] → (∀ s ∈ ss, ',' ∉ s.data) →
        (preparePersistentValue .simpleArray (.harr (ss.map JSVal.vstr))).bind
          (prepareHydratedValue today .simpleArray)
          = some (.harr (ss.map JSVal.vstr)))
  ∧ (∀ d : JsDate, d.year ≤ 9999 → d.month ≤ 99 → d.day ≤ 99 →
        (preparePersistentValue .date (.hdate d)).bind
          (prepareHydratedValue today .date)
          = some (.hdate ⟨d.year, d.month, d.day, 0, 0, 0, 0⟩))
  ∧ (∀ d : JsDate, d.hour ≤ 99 → d.minute ≤ 99 → d.second ≤ 99 →
        (preparePersistentValue .time (.hdate d)).bind
          (prepareHydratedValue today .time)
          = some (.hdate ⟨today.year, today.month, today.day,
              d.hour, d.minute, d.second, 0⟩))
  ∧ (∀ d : JsDate, d.year ≤ 9999 → d.month ≤ 99 → d.day ≤ 99 →
        d.hour ≤ 99 → d.minute ≤ 99 → d.second ≤ 99 →
        (preparePersistentValue .datetime (.hdate d)).bind
          (prepareHydratedValue today .datetime)
          = some (.hdate ⟨d.year, d.month, d.day,
              d.hour, d.minute, d.second, 0⟩)) := by
  refine ⟨?_, ?_, ?_, ?_, ?_, ?_⟩
  · intro b
    cases b <;> rfl
  · intro j hok
    simp only [preparePersistentValue, prepareHydratedValue, Option.some_bind]
    rw [parseJson_stringifyJson j hok]
    rfl
  · intro ss hne hfree
    have hmap : (ss.map JSVal.vstr).map jsToString = ss := by
      rw [List.map_map]
      rw [show jsToString ∘ JSVal.vstr = id from funext fun s => rfl,
        List.map_id]
    simp only [preparePersistentValue, prepareHydratedValue, Option.some_bind]
    rw [hmap, jsSplitComma_joinComma ss hne hfree]
  · intro d h1 h2 h3
    simp only [preparePersistentValue, prepareHydratedValue, Option.some_bind]
    rw [momentParseDate_format d h1 h2 h3]
    rfl
  · intro d h1 h2 h3
    simp only [preparePersistentValue, prepareHydratedValue, Option.some_bind]
    rw [momentParseTime_format today d h1 h2 h3]
    rfl
  · intro d h1 h2 h3 h4 h5 h6
    simp only [preparePersistentValue, prepareHydratedValue, Option.some_bind]
    rw [momentParseDateTime_format d h1 h2 h3 h4 h5 h6]
    rfl

/-- Witness for `prepare_roundtrip` at concrete values of json, datetime and
    simple-array columns. -/
theorem prepare_roundtrip_witness :
    (preparePersistentValue .json (.hjson (.jstr "hi"))).bind
      (prepareHydratedValue ⟨2020, 1, 2, 3, 4, 5, 6⟩ .json)
      = some (.hjson (.jstr "hi"))
  ∧ (preparePersistentValue .datetime (.hdate ⟨2024, 3, 9, 13, 5, 6, 7⟩)).bind
      (prepareHydratedValue ⟨2020, 1, 2, 3, 4, 5, 6⟩ .datetime)
      = some (.hdate ⟨2024, 3, 9, 13, 5, 6, 0⟩)
  ∧ (preparePersistentValue .simpleArray
        (.harr ([" a", "b"].map JSVal.vstr))).bind
      (prepareHydratedValue ⟨2020, 1, 2, 3, 4, 5, 6⟩ .simpleArray)
      = some (.harr ([" a", "b"].map JSVal.vstr)) := by
  refine ⟨(prepare_roundtrip _).2.1 _ (by rfl), ?_, ?_⟩
  · exact (prepare_roundtrip _).2.2.2.2.2 ⟨2024, 3, 9, 13, 5, 6, 7⟩
      (by decide) (by decide) (by decide) (by decide) (by decide) (by decide)
  · exact (prepare_roundtrip _).2.2.1 [" a", "b"] (by simp) (by decide)

/-- C7 counterexample: for a simple-array column the round trip is not exact
    on the claimed domain — persisting the empty array yields the empty
    string, which hydrates back to `[""]`, not `[]`. -/
theorem prepare_simpleArray_counterexample :
    (preparePersistentValue .simpleArray (.harr [])).bind
      (prepareHydratedValue ⟨2020, 1, 1, 0, 0, 0, 0⟩ .simpleArray)
      = some (.harr [.vstr ""])
  ∧ ([] : List JSVal) ≠ [JSVal.vstr ""] :=
  ⟨rfl, by simp⟩

/-- C8: `insertIntoClosureTable` returns the maximum level among rows whose
    descendant equals the parent plus one, and returns 1 when no such row
    exists or the retrieved level is null (a zero level also yields 1, which
    still equals 0 + 1). -/
theorem insertIntoClosureTable_returned_level :
    (∀ (m : Int) (rest : List (Option Int)),
        closureTableReturnValue (some m :: rest) = m + 1)
  ∧ closureTableReturnValue [] = 1
  ∧ (∀ rest : List (Option Int), closureTableReturnValue (none :: rest) = 1)
  ∧ closureMaxLevelSql "closure" 7
      = "SELECT MAX(level) as level FROM closure WHERE descendant = 7" := by
  refine ⟨?_, rfl, fun rest => rfl, by rfl⟩
  intro m rest
  by_cases hm : m = 0
  · subst hm
    simp [closureTableReturnValue]
  · simp [closureTableReturnValue, hm]

/-- C9 (amended): the numeric ids of tracked pooled connections are pairwise
    distinct in every state reachable by retrieve operations alone; once a
    release removes a record, a later retrieve of a new handle reuses an id,
    because a fresh record's id is the current collection length. -/
theorem pool_ids_distinct_under_retrieves :
    ∀ hs : List Nat,
      ((runOps initPool (hs.map PoolOp.retrieve)).conns.map
          DbConnRec.id).Nodup := by
  intro hs
  rw [runOps_retrieve_ids hs initPool (by simp [initPool])]
  exact List.nodup_range _

/-- C9 counterexample: retrieve three distinct handles, release the first,
    then retrieve a fourth — the new record receives id 2, which the record
    of the third handle already carries. -/
theorem pool_ids_duplicate_counterexample :
    ¬ ((runOps initPool
          [.retrieve 10, .retrieve 20, .release 10, .retrieve 30]).conns.map
            DbConnRec.id).Nodup := by
  decide

/-- C10: a bound empty sequence is replaced by the empty string and
    contributes no arguments, so `IN (:list)` with an empty list yields the
    malformed fragment `IN ()`. -/
theorem escapeQueryWithParameters_empty_sequence :
    (∀ built : List JSVal, applyValue (.varr []) built = ("", built))
  ∧ escapeQueryWithParameters "SELECT * FROM t WHERE y IN (:v2)"
      [("v2", JSVal.varr [])]
      = ("SELECT * FROM t WHERE y IN ()", []) :=
  ⟨fun _ => rfl, rfl⟩

end PostgresDriver
